import Mathlib

/-!
# Verification of the weblog static-site generator

A shallow embedding, in Lean 4, of the build pipeline implemented in
`scripts/serve.js` (the file holds both the development server and the
static-site generator `build.js` logic).  Pure functions of the source are
translated into Lean functions; external library capabilities (the
`marked` Markdown converter and the `gray-matter` frontmatter splitter)
are taken as function parameters; effectful build steps are modelled by
the trace of file paths they write.

Machine numbers are modelled as `Int`/`Nat`; JavaScript division and
modulus on date arithmetic always appear through explicit `Int.ediv` /
`Int.emod` (floor semantics, matching the ECMAScript `Day(t)` and
`WeekDay(t)` operators which use floor and positive modulus).
-/

namespace Weblog

/-! ## YAML values

`gray-matter` parses the frontmatter with a YAML parser, so a frontmatter
value reaching `parseDocument` is a typed value: a string, a boolean, a
number, a null, or a calendar date (unquoted YAML dates such as
`date: 2025-01-10` become JavaScript `Date` objects, modelled here by
their millisecond timestamp, which for a date-only value is always a
valid date).  This type models exactly those possibilities. -/

inductive Yaml where
  | str (s : String)
  | bool (b : Bool)
  | num (n : Int)
  | date (ms : Int)
  | null
deriving DecidableEq, Repr

/-- JavaScript truthiness of a frontmatter value, as used by the
`x || default` fallbacks in `parseDocument` and by `if (!value)` in
`formatPostDate`: empty string, `false`, `0` and `null` are falsy;
a `Date` object is always truthy. -/
def truthy : Yaml → Bool
  | .str s => decide (s ≠ "")
  | .bool b => b
  | .num n => decide (n ≠ 0)
  | .date _ => true
  | .null => false

/-- The JavaScript `v || d` defaulting idiom on an optional frontmatter
field: an absent key (`none`) or a falsy value falls back to `d`. -/
def jsOr (v : Option Yaml) (d : Yaml) : Yaml :=
  match v with
  | some y => if truthy y then y else d
  | none => d

/-! ## The Document record

The shape documented in the DATA STRUCTURES comment block of the source:
title, subtitle, description, date, template, usesMath, usesCode, body,
slug.  The metadata fields keep the YAML value they were given (the
source performs no type coercion on them), `body` is the HTML produced by
the Markdown conversion, `slug` is derived from the filename. -/

structure Document where
  title : Yaml
  subtitle : Yaml
  description : Yaml
  date : Yaml
  template : Yaml
  usesMath : Bool
  usesCode : Bool
  body : String
  slug : String
deriving DecidableEq, Repr

/-- `path.basename(filePath, '.md')`: the last `/`-separated segment of
the path, with a trailing `.md` suffix removed. -/
def basenameMd (filePath : String) : String :=
  let seg := (filePath.data.foldl
    (fun acc c => if c = '/' then [] else c :: acc) []).reverse
  if (".md".data).isSuffixOf seg then
    ⟨seg.take (seg.length - 3)⟩
  else
    ⟨seg⟩

/-- The JavaScript strict comparison `v === true` on an optional
frontmatter value: `true` only for the boolean value `true`; any other
value, and an absent key, give `false`. -/
def strictEqTrue (o : Option Yaml) : Bool :=
  match o with
  | some (.bool true) => true
  | _ => false

theorem strictEqTrue_iff (o : Option Yaml) :
    strictEqTrue o = true ↔ o = some (.bool true) := by
  rcases o with _ | y
  · simp [strictEqTrue]
  · rcases y with s | b | n | ms | _ <;> try simp [strictEqTrue]
    rcases b <;> simp [strictEqTrue]

/-- `parseDocument` from `scripts/serve.js` (lines 414-441).

`matterFn` stands for the external `gray-matter` capability: from the raw
file content it returns the parsed frontmatter mapping and the remaining
Markdown body.  `markedParse` stands for the external `marked.parse`
Markdown-to-HTML capability.  The repository code applies the documented
defaults with `||` fallbacks, reads `uses_math` / `uses_code` with strict
equality `=== true`, converts the body, and derives the slug from the
filename. -/
def parseDocument (matterFn : String → List (String × Yaml) × String)
    (markedParse : String → String) (filePath content : String) : Document :=
  let r := matterFn content
  let data := r.1
  let markdown := r.2
  { title := jsOr (data.lookup "title") (.str "Untitled")
    subtitle := jsOr (data.lookup "subtitle") (.str "")
    description := jsOr (data.lookup "description") (.str "")
    date := jsOr (data.lookup "date") (.str "")
    template := jsOr (data.lookup "template") (.str "post")
    usesMath := strictEqTrue (data.lookup "uses_math")
    usesCode := strictEqTrue (data.lookup "uses_code")
    body := markedParse markdown
    slug := basenameMd filePath }

end Weblog

namespace Weblog

/-- C4: a Markdown file with no frontmatter marker lines (so that
`gray-matter` yields an empty data object and the whole file as content)
parses to a Document whose metadata fields are all at their documented
defaults, with the entire file content converted into the body. -/
theorem parseDocument_defaults_of_no_frontmatter
    (matterFn : String → List (String × Yaml) × String)
    (markedParse : String → String) (filePath content : String)
    (hnofm : matterFn content = ([], content)) :
    (parseDocument matterFn markedParse filePath content).title = .str "Untitled" ∧
    (parseDocument matterFn markedParse filePath content).subtitle = .str "" ∧
    (parseDocument matterFn markedParse filePath content).description = .str "" ∧
    (parseDocument matterFn markedParse filePath content).date = .str "" ∧
    (parseDocument matterFn markedParse filePath content).template = .str "post" ∧
    (parseDocument matterFn markedParse filePath content).usesMath = false ∧
    (parseDocument matterFn markedParse filePath content).usesCode = false ∧
    (parseDocument matterFn markedParse filePath content).body = markedParse content := by
  simp [parseDocument, hnofm, jsOr, List.lookup, strictEqTrue]

/-- Witness for C4 at a concrete frontmatter-less file. -/
theorem parseDocument_defaults_witness :
    (parseDocument (fun c => ([], c)) (fun s => s) "writing/posts/hello.md"
        "# Hello\nBody text.").title = .str "Untitled" ∧
    (parseDocument (fun c => ([], c)) (fun s => s) "writing/posts/hello.md"
        "# Hello\nBody text.").body = "# Hello\nBody text." := by
  have h := parseDocument_defaults_of_no_frontmatter (fun c => ([], c)) (fun s => s)
    "writing/posts/hello.md" "# Hello\nBody text." rfl
  exact ⟨h.1, h.2.2.2.2.2.2.2⟩

/-- C9: the `usesMath` flag (resp. `usesCode`) is `true` exactly when the
frontmatter value of `uses_math` (resp. `uses_code`) is the boolean
`true`; the strings `"true"`/`"yes"`, the number `1`, and an absent key
all give `false`. -/
theorem usesMath_iff_bool_true
    (markedParse : String → String) (filePath content : String) :
    (∀ data markdown,
      ((parseDocument (fun _ => (data, markdown)) markedParse filePath content).usesMath = true ↔
        data.lookup "uses_math" = some (.bool true)) ∧
      ((parseDocument (fun _ => (data, markdown)) markedParse filePath content).usesCode = true ↔
        data.lookup "uses_code" = some (.bool true))) ∧
    (parseDocument (fun _ => ([("uses_math", .str "true"), ("uses_code", .str "yes")], ""))
        markedParse filePath content).usesMath = false ∧
    (parseDocument (fun _ => ([("uses_math", .str "true"), ("uses_code", .str "yes")], ""))
        markedParse filePath content).usesCode = false ∧
    (parseDocument (fun _ => ([("uses_math", .num 1), ("uses_code", .num 1)], ""))
        markedParse filePath content).usesMath = false ∧
    (parseDocument (fun _ => ([], "")) markedParse filePath content).usesMath = false := by
  refine ⟨fun data markdown => ⟨?_, ?_⟩, ?_, ?_, ?_, ?_⟩
  · simpa [parseDocument] using strictEqTrue_iff (data.lookup "uses_math")
  · simpa [parseDocument] using strictEqTrue_iff (data.lookup "uses_code")
  all_goals rfl

/-! ## Template renderer

`renderTemplate` (lines 463-474) replaces, for each `[key, value]` entry
of the values object in insertion order, every occurrence of the regex
`\{\{\s*key\s*\}\}` with the value, using a function replacer so that the
replacement text is inserted verbatim (no `$`-pattern interpretation).
The model scans the character list left to right; at each position it
tries to match an opening `{{`, a maximal run of whitespace, the key, a
maximal run of whitespace, and a closing `}}` — exactly the regex for a
key that starts and ends with a non-whitespace character, which every key
used by the source does.  A successful match emits the value verbatim and
resumes after the match (the replacement is not rescanned within the same
pass, as with a single `String.prototype.replace` call). -/

/-- The whitespace class `\s` of JavaScript regular expressions,
restricted to the ASCII range (the templates are ASCII). -/
def jsSpace (c : Char) : Bool :=
  c = ' ' ∨ c = '\t' ∨ c = '\n' ∨ c = '\r' ∨ c = '\x0b' ∨ c = '\x0c'

/-- Try to match `\{\{\s*key\s*\}\}` at the head of `cs`; on success
return the characters following the match. -/
def tryMatch (key : List Char) (cs : List Char) : Option (List Char) :=
  match cs with
  | '\x7b' :: '\x7b' :: cs1 =>
    let cs2 := cs1.dropWhile jsSpace
    if key.isPrefixOf cs2 then
      match (cs2.drop key.length).dropWhile jsSpace with
      | '\x7d' :: '\x7d' :: rest => some rest
      | _ => none
    else none
  | _ => none

/-- One global-replace pass, scanning left to right.  `fuel` only bounds
the recursion: each step consumes at least one character of `cs` (a match
consumes at least four), so starting the scan with `fuel = cs.length`
never exhausts the fuel before the scan completes. -/
def replacePassAux (key value : List Char) : Nat → List Char → List Char
  | _, [] => []
  | Nat.succ fuel, c :: cs =>
    match tryMatch key (c :: cs) with
    | some rest => value ++ replacePassAux key value fuel rest
    | none => c :: replacePassAux key value fuel cs
  | 0, cs => cs

/-- `result.replace(placeholder, () => value)` for one key. -/
def replacePass (key value s : String) : String :=
  ⟨replacePassAux key.data value.data s.data.length s.data⟩

/-- `renderTemplate` (lines 463-474): fold the single-key global replace
over the entries of the values map in order. -/
def renderTemplate (template : String) (values : List (String × String)) : String :=
  values.foldl (fun result kv => replacePass kv.1 kv.2 result) template

/-- Does `s` contain an occurrence of the placeholder pattern for `key`?
(Used to state the no-reinjection hypothesis of the idempotence
property.) -/
def containsPlaceholderAux (key : List Char) : List Char → Bool
  | [] => false
  | c :: cs => (tryMatch key (c :: cs)).isSome || containsPlaceholderAux key cs

def containsPlaceholder (key s : String) : Bool :=
  containsPlaceholderAux key.data s.data

theorem replacePassAux_of_no_match (key value : List Char) :
    ∀ (fuel : Nat) (cs : List Char), containsPlaceholderAux key cs = false →
      replacePassAux key value fuel cs = cs := by
  intro fuel
  induction fuel with
  | zero => intro cs _; cases cs <;> rfl
  | succ fuel ih =>
    intro cs h
    cases cs with
    | nil => rfl
    | cons c cs =>
      simp only [containsPlaceholderAux, Bool.or_eq_false_iff] at h
      have hnone : tryMatch key (c :: cs) = none := by
        cases hm : tryMatch key (c :: cs) with
        | none => rfl
        | some rest => rw [hm] at h; simp at h
      simp only [replacePassAux, hnone]
      exact congrArg (c :: ·) (ih cs h.2)

theorem replacePass_of_no_match (key value s : String)
    (h : containsPlaceholder key s = false) : replacePass key value s = s := by
  unfold replacePass
  rw [replacePassAux_of_no_match key.data value.data s.data.length s.data h]

theorem renderTemplate_of_no_match (values : List (String × String)) :
    ∀ (s : String), (∀ kv ∈ values, containsPlaceholder kv.1 s = false) →
      renderTemplate s values = s := by
  induction values with
  | nil => intro s _; rfl
  | cons kv values ih =>
    intro s h
    have h1 : replacePass kv.1 kv.2 s = s :=
      replacePass_of_no_match kv.1 kv.2 s (h kv (List.mem_cons_self kv values))
    show renderTemplate (replacePass kv.1 kv.2 s) values = s
    rw [h1]
    exact ih s (fun kv2 hm => h kv2 (List.mem_cons_of_mem kv hm))

/-- C2: `renderTemplate` inserts the replacement value
character-for-character.  For any replacement value `v` — in particular
one containing `$` or `\` characters — the placeholder is replaced by `v`
verbatim, with no escape-sequence or backreference reinterpretation; the
second conjunct exhibits this on a value built entirely from `$`-pattern
and backslash sequences (`$$`, `$1`, `$&`, `\(`, `\)`). -/
theorem renderTemplate_verbatim :
    (∀ v : String, renderTemplate "x\x7b\x7bk\x7d\x7dy" [("k", v)] = "x" ++ v ++ "y") ∧
    (∀ v : String, renderTemplate "a\x7b\x7b k \x7d\x7db" [("k", v)] = "a" ++ v ++ "b") ∧
    renderTemplate "a\x7b\x7b k \x7d\x7db" [("k", "$$\\(x\\)$1$&")] = "a$$\\(x\\)$1$&b" := by
  refine ⟨fun v => ?_, fun v => ?_, ?_⟩
  · apply String.ext
    show (replacePass "k" v "x\x7b\x7bk\x7d\x7dy").data = _
    simp [replacePass, replacePassAux, tryMatch, jsSpace, String.data_append]
  · apply String.ext
    show (replacePass "k" v "a\x7b\x7b k \x7d\x7db").data = _
    simp [replacePass, replacePassAux, tryMatch, jsSpace, String.data_append]
  · rfl

/-- C6: idempotence under no-reinjection.  If the output of the first
rendering pass contains no placeholder occurrence for any key of the
values map (which is the case whenever no replacement value introduces a
new placeholder sequence: the first pass itself already replaced every
original occurrence of each key), then rendering a second time with the
same values map changes nothing. -/
theorem renderTemplate_idempotent (t : String) (values : List (String × String))
    (h : ∀ kv ∈ values, containsPlaceholder kv.1 (renderTemplate t values) = false) :
    renderTemplate (renderTemplate t values) values = renderTemplate t values :=
  renderTemplate_of_no_match values (renderTemplate t values) h

/-- Witness for C6 at a concrete template and values map. -/
theorem renderTemplate_idempotent_witness :
    renderTemplate
      (renderTemplate "<p>\x7b\x7bbody\x7d\x7d</p><h1>\x7b\x7btitle\x7d\x7d</h1>"
        [("body", "math $x$ and \\(y\\)"), ("title", "A Post")])
      [("body", "math $x$ and \\(y\\)"), ("title", "A Post")] =
    renderTemplate "<p>\x7b\x7bbody\x7d\x7d</p><h1>\x7b\x7btitle\x7d\x7d</h1>"
      [("body", "math $x$ and \\(y\\)"), ("title", "A Post")] :=
  renderTemplate_idempotent "<p>\x7b\x7bbody\x7d\x7d</p><h1>\x7b\x7btitle\x7d\x7d</h1>"
    [("body", "math $x$ and \\(y\\)"), ("title", "A Post")] (by decide)

/-! ## Dates

`renderIndex` and `formatPostDate` call `new Date(value)`.  For a string,
ECMAScript parses the Date Time String Format; the date-only forms
(`YYYY`, `YYYY-MM`, `YYYY-MM-DD`) are interpreted as UTC midnight, and a
string that does not parse yields an invalid date (`NaN` time value),
modelled as `none`.  (Engine-specific fallback formats for non-ISO
strings are outside the modelled format; no frontmatter date in the
repository, and no input of a theorem below, uses one.)  The
civil-calendar arithmetic matches the proleptic Gregorian calendar used
by ECMAScript `MakeDay`/`MonthFromTime`, via the standard era-based
conversion between `(year, month, day)` triples and day numbers relative
to 1970-01-01. -/

def isLeap (y : Int) : Bool := (y.emod 4 = 0 ∧ y.emod 100 ≠ 0) ∨ y.emod 400 = 0

def daysInMonth (y m : Int) : Int :=
  if m = 2 then (if isLeap y then 29 else 28)
  else if m = 4 ∨ m = 6 ∨ m = 9 ∨ m = 11 then 30
  else 31

/-- Days since 1970-01-01 of the civil date `(y, m, d)`. -/
def daysFromCivil (y m d : Int) : Int :=
  let y2 := if m ≤ 2 then y - 1 else y
  let era := y2.ediv 400
  let yoe := y2 - era * 400
  let doy := (153 * (if m > 2 then m - 3 else m + 9) + 2).ediv 5 + d - 1
  let doe := yoe * 365 + yoe.ediv 4 - yoe.ediv 100 + doy
  era * 146097 + doe - 719468

/-- Civil date `(y, m, d)` of a day number since 1970-01-01; the UTC
getters `getUTCFullYear`/`getUTCMonth`/`getUTCDate` read off its
components. -/
def civilFromDays (z0 : Int) : Int × Int × Int :=
  let z := z0 + 719468
  let era := z.ediv 146097
  let doe := z - era * 146097
  let yoe := (doe - doe.ediv 1460 + doe.ediv 36524 - doe.ediv 146096).ediv 365
  let y := yoe + era * 400
  let doy := doe - (365 * yoe + yoe.ediv 4 - yoe.ediv 100)
  let mp := (5 * doy + 2).ediv 153
  let d := doy - (153 * mp + 2).ediv 5 + 1
  let m := if mp < 10 then mp + 3 else mp - 9
  (if m ≤ 2 then y + 1 else y, m, d)

def splitOnCharAux (sep : Char) (cur : List Char) : List Char → List (List Char)
  | [] => [cur.reverse]
  | c :: cs => if c = sep then cur.reverse :: splitOnCharAux sep [] cs
               else splitOnCharAux sep (c :: cur) cs

/-- Split a string at every occurrence of `sep` (kept kernel-computable
by working on the character list directly). -/
def splitOnChar (sep : Char) (s : String) : List (List Char) :=
  splitOnCharAux sep [] s.data

def digitsToInt (cs : List Char) : Int :=
  Int.ofNat (cs.foldl (fun n c => 10 * n + (c.toNat - 48)) 0)

def allDigits (cs : List Char) : Bool := cs.all Char.isDigit

def msPerDay : Int := 86400000

/-- `new Date(string).getTime()` for the ECMAScript date-only formats:
`some` millisecond timestamp of UTC midnight for a valid `YYYY`,
`YYYY-MM` or `YYYY-MM-DD` string, `none` (an invalid date, `NaN`)
otherwise. -/
def jsParseDate (s : String) : Option Int :=
  let fields := splitOnChar '-' s
  match fields with
  | [ycs] =>
    if ycs.length = 4 ∧ allDigits ycs then
      some (msPerDay * daysFromCivil (digitsToInt ycs) 1 1)
    else none
  | [ycs, mcs] =>
    if ycs.length = 4 ∧ mcs.length = 2 ∧ allDigits ycs ∧ allDigits mcs ∧
        1 ≤ digitsToInt mcs ∧ digitsToInt mcs ≤ 12 then
      some (msPerDay * daysFromCivil (digitsToInt ycs) (digitsToInt mcs) 1)
    else none
  | [ycs, mcs, dcs] =>
    if ycs.length = 4 ∧ mcs.length = 2 ∧ dcs.length = 2 ∧
        allDigits ycs ∧ allDigits mcs ∧ allDigits dcs ∧
        1 ≤ digitsToInt mcs ∧ digitsToInt mcs ≤ 12 ∧
        1 ≤ digitsToInt dcs ∧
        digitsToInt dcs ≤ daysInMonth (digitsToInt ycs) (digitsToInt mcs) then
      some (msPerDay * daysFromCivil (digitsToInt ycs) (digitsToInt mcs) (digitsToInt dcs))
    else none
  | _ => none

def weekdayNames : List String := ["Sun", "Mon", "Tue", "Wed", "Thu", "Fri", "Sat"]

def monthNames : List String :=
  ["Jan", "Feb", "Mar", "Apr", "May", "Jun", "Jul", "Aug", "Sep", "Oct", "Nov", "Dec"]

/-- `String(year).slice(-2)`: the last two characters (the whole string
when it is shorter than two characters, as in JavaScript). -/
def sliceLastTwo (s : String) : String := ⟨s.data.drop (s.data.length - 2)⟩

/-- `String.prototype.trim`, on the character list. -/
def jsTrim (s : String) : String :=
  ⟨((s.data.dropWhile jsSpace).reverse.dropWhile jsSpace).reverse⟩

/-- The formatting body of `formatPostDate` (lines 594-601) on a valid
time value: weekday and month names via the two lookup tables (with the
`|| ''` fallback as `getD ""`), the UTC day-of-month, and the last two
digits of the UTC year after an apostrophe, then `trim`.  `Day(t)` and
`WeekDay(t)` of ECMAScript use floor division and nonnegative modulus,
hence `Int.ediv`/`Int.emod`. -/
def fmtValidDate (ms : Int) : String :=
  let day := ms.ediv 86400000
  let wd := (day + 4).emod 7
  let c := civilFromDays day
  let weekday := weekdayNames.getD wd.toNat ""
  let month := monthNames.getD (c.2.1 - 1).toNat ""
  jsTrim (weekday ++ " " ++ month ++ " " ++ toString c.2.2 ++ " \x27" ++
    sliceLastTwo (toString c.1))

/-- `formatPostDate` (lines 576-602).  A falsy value (absent date,
defaulted to the empty string) gives the empty label; a `Date` value from
the YAML parser is formatted directly (the `value instanceof Date`
branch; a YAML date is always a valid date, so the second `NaN` check
never fires); a string is parsed with `new Date(value)`, returned as-is
when the parse fails (`String(value)`), formatted when it succeeds; a
number or boolean is coerced by the `Date` constructor to a timestamp. -/
def formatPostDate (value : Yaml) : String :=
  if truthy value = false then ""
  else
    match value with
    | .date ms => fmtValidDate ms
    | .str s =>
      match jsParseDate s with
      | none => s
      | some ms => fmtValidDate ms
    | .num n => fmtValidDate n
    | .bool _ => fmtValidDate 1
    | .null => ""

/-- C3: the index date formatter yields the empty label on an absent
(defaulted-to-empty) date; formats a parseable date in UTC as
`<Weekday> <Month> <Day> '<2-digit-Year>` — `2025-12-28` gives
`Sun Dec 28 '25`, both as a string and as the YAML-parsed `Date` object
carrying the same UTC timestamp; and returns a non-empty unparseable
value in its original textual form. -/
theorem formatPostDate_spec :
    formatPostDate (.str "") = "" ∧
    formatPostDate (.str "2025-12-28") = "Sun Dec 28 \x2725" ∧
    jsParseDate "2025-12-28" = some 1766880000000 ∧
    formatPostDate (.date 1766880000000) = "Sun Dec 28 \x2725" ∧
    (∀ s : String, s ≠ "" → jsParseDate s = none → formatPostDate (.str s) = s) := by
  refine ⟨rfl, by decide, by decide, by decide, fun s hs hparse => ?_⟩
  have ht : truthy (.str s) = true := by simp [truthy, hs]
  simp [formatPostDate, ht, hparse]

/-- Witness for C3: a concrete non-empty value that fails to parse is
returned verbatim. -/
theorem formatPostDate_spec_witness :
    formatPostDate (.str "not-a-date") = "not-a-date" :=
  formatPostDate_spec.2.2.2.2 "not-a-date" (by decide) (by decide)

/-! ## Index sorting

`renderIndex` (lines 626-632) sorts a copy of the posts with
`sort((a, b) => new Date(a.date || 0) - new Date(b.date || 0) ... )`,
comparator `dateB - dateA`.  A falsy date (the empty-string default for
an absent date) is replaced by `0` before the `Date` conversion, giving
the Unix epoch; an unparseable string gives an invalid date, so the
subtraction yields `NaN`, which the ECMAScript `SortCompare` operation
converts to `+0` — the pair compares as a tie.  `Array.prototype.sort`
must be stable (ES2019+); for a consistent comparator every stable sort
produces the same list, and we model it by the canonical stable insertion
sort, in which each element is inserted after all earlier elements it
ties with. -/

/-- The time value of `new Date(doc.date || 0)`: `none` is `NaN`. -/
def sortKey (d : Yaml) : Option Int :=
  if truthy d then
    match d with
    | .date ms => some ms
    | .str s => jsParseDate s
    | .num n => some n
    | .bool _ => some 1
    | .null => some 0
  else some 0

/-- The comparator `(a, b) => dateB - dateA`, after `SortCompare` has
turned a `NaN` result into `+0`. -/
def jsCompare (a b : Document) : Int :=
  match sortKey a.date, sortKey b.date with
  | some ka, some kb => kb - ka
  | _, _ => 0

/-- Insert `x` into `l` before the first element `y` with
`c x y < 0` (after every element it ties with — stability). -/
def stableInsert {α : Type} (c : α → α → Int) (x : α) : List α → List α
  | [] => [x]
  | y :: ys => if c x y < 0 then x :: y :: ys else y :: stableInsert c x ys

/-- Stable sort by the comparator `c`, processing elements left to
right. -/
def jsStableSort {α : Type} (c : α → α → Int) (l : List α) : List α :=
  l.foldl (fun acc x => stableInsert c x acc) []

/-- The `sortedPosts` computation of `renderIndex`. -/
def sortIndexPosts (posts : List Document) : List Document :=
  jsStableSort jsCompare posts

theorem mem_stableInsert {α : Type} (c : α → α → Int) (x w : α) (l : List α) :
    w ∈ stableInsert c x l ↔ w = x ∨ w ∈ l := by
  induction l with
  | nil => simp [stableInsert]
  | cons y ys ih =>
    by_cases hc : c x y < 0 <;> simp [stableInsert, hc, ih] <;> tauto

theorem stableInsert_perm {α : Type} (c : α → α → Int) (x : α) (l : List α) :
    (stableInsert c x l).Perm (x :: l) := by
  induction l with
  | nil => simp [stableInsert]
  | cons y ys ih =>
    by_cases hc : c x y < 0
    · simp [stableInsert, hc]
    · simp only [stableInsert, hc, if_neg]
      exact (ih.cons y).trans (List.Perm.swap x y ys)

theorem jsStableSort_perm {α : Type} (c : α → α → Int) (l : List α) :
    (jsStableSort c l).Perm l := by
  suffices h : ∀ (l acc : List α), (l.foldl (fun acc x => stableInsert c x acc) acc).Perm
      (acc ++ l) by
    simpa using h l []
  intro l
  induction l with
  | nil => simp
  | cons x xs ih =>
    intro acc
    simp only [List.foldl_cons]
    have h2 : ((stableInsert c x acc) ++ xs).Perm (acc ++ x :: xs) :=
      ((stableInsert_perm c x acc).append_right xs).trans List.perm_middle.symm
    exact (ih (stableInsert c x acc)).trans h2

theorem pairwise_stableInsert {α : Type} (c : α → α → Int)
    (hasym : ∀ x y, c x y < 0 → ¬ c y x < 0)
    (htrans : ∀ x y z, c x y < 0 → ¬ c z y < 0 → ¬ c z x < 0)
    (x : α) (l : List α) (h : l.Pairwise (fun a b => ¬ c b a < 0)) :
    (stableInsert c x l).Pairwise (fun a b => ¬ c b a < 0) := by
  induction l with
  | nil => simp [stableInsert]
  | cons y ys ih =>
    rcases List.pairwise_cons.mp h with ⟨hy, hys⟩
    by_cases hc : c x y < 0
    · simp only [stableInsert, hc, if_pos]
      refine List.pairwise_cons.mpr ⟨?_, h⟩
      intro w hw
      rcases List.mem_cons.mp hw with rfl | hw
      · exact hasym x w hc
      · exact htrans x y w hc (hy w hw)
    · simp only [stableInsert, hc, if_neg]
      refine List.pairwise_cons.mpr ⟨?_, ih hys⟩
      intro w hw
      rcases (mem_stableInsert c x w ys).mp hw with rfl | hw
      · exact hc
      · exact hy w hw

theorem pairwise_jsStableSort {α : Type} (c : α → α → Int)
    (hasym : ∀ x y, c x y < 0 → ¬ c y x < 0)
    (htrans : ∀ x y z, c x y < 0 → ¬ c z y < 0 → ¬ c z x < 0)
    (l : List α) :
    (jsStableSort c l).Pairwise (fun a b => ¬ c b a < 0) := by
  suffices h : ∀ (l acc : List α), acc.Pairwise (fun a b => ¬ c b a < 0) →
      (l.foldl (fun acc x => stableInsert c x acc) acc).Pairwise (fun a b => ¬ c b a < 0) by
    exact h l [] (by simp)
  intro l
  induction l with
  | nil => intro acc hacc; exact hacc
  | cons x xs ih =>
    intro acc hacc
    exact ih (stableInsert c x acc) (pairwise_stableInsert c hasym htrans x acc hacc)

theorem jsCompare_asym (x y : Document) (h : jsCompare x y < 0) : ¬ jsCompare y x < 0 := by
  unfold jsCompare at *
  rcases hx : sortKey x.date with _ | kx <;> rcases hy : sortKey y.date with _ | ky <;>
    simp [hx, hy] at h ⊢ <;> omega

theorem jsCompare_trans (x y z : Document) (h1 : jsCompare x y < 0)
    (h2 : ¬ jsCompare z y < 0) : ¬ jsCompare z x < 0 := by
  unfold jsCompare at *
  rcases hx : sortKey x.date with _ | kx <;> rcases hy : sortKey y.date with _ | ky <;>
    rcases hz : sortKey z.date with _ | kz <;> simp [hx, hy, hz] at h1 h2 ⊢ <;> omega

/-- A post Document with the given date value and slug and default-like
remaining fields, used for concrete index-sorting inputs. -/
def mkPost (dateVal : Yaml) (slugVal : String) : Document :=
  { title := .str "T", subtitle := .str "", description := .str "",
    date := dateVal, template := .str "post", usesMath := false,
    usesCode := false, body := "", slug := slugVal }

/-- Modelled from the spec wording of C1: the parsed date of a Document,
where an absent (falsy) date or a date value that fails to parse as a
date has no key (`none`). -/
def claimDateKey (d : Document) : Option Int :=
  if truthy d.date then
    match d.date with
    | .str s => jsParseDate s
    | .date ms => some ms
    | .num n => some n
    | .bool _ => some 1
    | .null => none
  else none

/-- Modelled from the spec wording of C1: `a` may precede `b` in the
claimed order — parsed dates descending, with an absent or unparseable
date treated as the earliest possible value (strictly below every parsed
date, hence after all posts with parseable dates). -/
def claimOrdered (a b : Document) : Bool :=
  match claimDateKey a, claimDateKey b with
  | some ka, some kb => kb ≤ ka
  | some _, none => true
  | none, none => true
  | none, some _ => false

/-- Modelled from the spec wording of C1: the list is ordered as the
claim describes. -/
def claimC1Sorted (l : List Document) : Prop :=
  l.Pairwise (fun a b => claimOrdered a b = true)

/-- C1 counterexample: the code maps an absent date to `new Date(0)`
(the Unix epoch, 1970), not to the earliest possible value, so an
undated post sorts BEFORE a post whose date parses to a pre-1970 time:
sorting an undated post together with one dated `1960-01-05` leaves the
undated post first, and the output violates the claimed order. -/
theorem sortIndexPosts_claim_counterexample :
    claimDateKey (mkPost (.str "") "undated") = none ∧
    claimDateKey (mkPost (.str "1960-01-05") "early") = some (-315273600000) ∧
    sortIndexPosts [mkPost (.str "") "undated", mkPost (.str "1960-01-05") "early"] =
      [mkPost (.str "") "undated", mkPost (.str "1960-01-05") "early"] ∧
    ¬ claimC1Sorted
        (sortIndexPosts [mkPost (.str "") "undated", mkPost (.str "1960-01-05") "early"]) := by
  refine ⟨rfl, by decide, by decide, ?_⟩
  intro h
  have := (List.pairwise_cons.mp h).1 (mkPost (.str "1960-01-05") "early") (by decide)
  revert this
  decide

/-- C1 amended: `renderIndex` sorts the posts by the comparator
`new Date(b.date || 0) - new Date(a.date || 0)` — parsed dates
descending, with an ABSENT (falsy) date treated as the Unix epoch
`1970-01-01` rather than the earliest possible value, and an unparseable
date producing `NaN` comparisons that the sort treats as ties (such a
post keeps a stability-determined position instead of being forced
last).  The output is always a permutation of the input, pairwise
ordered by the comparator; the spec worked example (`2025-01-10`,
`2025-01-07`, absent) still orders as stated because the epoch precedes
both dates. -/
theorem sortIndexPosts_amended :
    (∀ posts : List Document,
      (sortIndexPosts posts).Perm posts ∧
      (sortIndexPosts posts).Pairwise (fun a b => ¬ jsCompare b a < 0)) ∧
    sortKey (.str "") = some 0 ∧
    sortIndexPosts
        [mkPost (.str "2025-01-07") "b", mkPost (.str "2025-01-10") "a",
          mkPost (.str "") "c"] =
      [mkPost (.str "2025-01-10") "a", mkPost (.str "2025-01-07") "b",
        mkPost (.str "") "c"] := by
  refine ⟨fun posts => ⟨jsStableSort_perm jsCompare posts,
    pairwise_jsStableSort jsCompare jsCompare_asym jsCompare_trans posts⟩, rfl, by decide⟩

/-! ## Fenced code block rendering

`renderer.code` (lines 366-377) escapes `&`, `<`, `>` in the code content
by three successive global single-character replaces (in that order, so
the `&` introduced by `&lt;`/`&gt;` is not re-escaped), and turns a
truthy language tag into the attribute ` class="language-<tag>"`. -/

/-- `String.prototype.replace` with a global single-character pattern. -/
def jsReplaceChar (target : Char) (rep : List Char) : List Char → List Char
  | [] => []
  | c :: cs =>
    if c = target then rep ++ jsReplaceChar target rep cs
    else c :: jsReplaceChar target rep cs

/-- The `escapedCode` chain of `renderer.code`: replace `&` by `&amp;`,
then `<` by `&lt;`, then `>` by `&gt;`. -/
def escapeHtml (s : String) : String :=
  ⟨jsReplaceChar '>' "&gt;".data
    (jsReplaceChar '<' "&lt;".data
      (jsReplaceChar '&' "&amp;".data s.data))⟩

/-- The intended entity escaping, stated character by character: each
`&`, `<`, `>` becomes its entity, every other character is kept. -/
def escapeCharSpec (c : Char) : List Char :=
  if c = '&' then "&amp;".data
  else if c = '<' then "&lt;".data
  else if c = '>' then "&gt;".data
  else [c]

def escapeHtmlSpec (s : String) : String :=
  ⟨s.data.foldr (fun c acc => escapeCharSpec c ++ acc) []⟩

theorem jsReplaceChar_append (t : Char) (r xs ys : List Char) :
    jsReplaceChar t r (xs ++ ys) = jsReplaceChar t r xs ++ jsReplaceChar t r ys := by
  induction xs with
  | nil => rfl
  | cons c cs ih => by_cases h : c = t <;> simp [jsReplaceChar, h, ih]

theorem escape_chain_eq_spec (cs : List Char) :
    jsReplaceChar '>' "&gt;".data
      (jsReplaceChar '<' "&lt;".data (jsReplaceChar '&' "&amp;".data cs)) =
    cs.foldr (fun c acc => escapeCharSpec c ++ acc) [] := by
  induction cs with
  | nil => rfl
  | cons c cs ih =>
    by_cases h1 : c = '&'
    · subst h1
      simp [jsReplaceChar, jsReplaceChar_append, escapeCharSpec, ih]
    · by_cases h2 : c = '<'
      · subst h2
        simp [jsReplaceChar, jsReplaceChar_append, escapeCharSpec, ih]
      · by_cases h3 : c = '>'
        · subst h3
          simp [jsReplaceChar, jsReplaceChar_append, escapeCharSpec, ih]
        · simp [jsReplaceChar, escapeCharSpec, h1, h2, h3, ih]

/-- `renderer.code`: a falsy (empty) language gives no class attribute,
a truthy one gives the `language-<tag>` class hook. -/
def rendererCode (code language : String) : String :=
  let langClass :=
    if language ≠ "" then " class=\"language-" ++ language ++ "\"" else ""
  "<pre><code" ++ langClass ++ ">" ++ escapeHtml code ++ "</code></pre>\n"

/-- C7: the code renderer entity-escapes every `&`, `<`, `>` of the code
content (the three-pass replace chain equals the character-by-character
entity map, so each such character is escaped and nothing else changes),
and a present language tag appears exactly as the `language-<tag>` class
attribute on the `<code>` element — e.g. a block tagged `python` carries
`class="language-python"`. -/
theorem rendererCode_escapes_and_class :
    (∀ code : String, escapeHtml code = escapeHtmlSpec code) ∧
    (∀ code lang : String, lang ≠ "" →
      rendererCode code lang =
        "<pre><code class=\"language-" ++ lang ++ "\">" ++ escapeHtml code ++
          "</code></pre>\n") ∧
    rendererCode "if a<b && c>d:" "python" =
      "<pre><code class=\"language-python\">if a&lt;b &amp;&amp; c&gt;d:</code></pre>\n" := by
  refine ⟨fun code => ?_, fun code lang hl => ?_, by decide⟩
  · unfold escapeHtml escapeHtmlSpec
    exact congrArg String.mk (escape_chain_eq_spec code.data)
  · apply String.ext
    simp [rendererCode, hl, String.data_append]

/-- Witness for C7 at a concrete code block and language tag. -/
theorem rendererCode_escapes_and_class_witness :
    rendererCode "x" "py" =
      "<pre><code class=\"language-py\">x</code></pre>\n" := by
  rw [rendererCode_escapes_and_class.2.1 "x" "py" (by decide)]
  rfl

/-! ## Preview server path guard

`handleRequest` (lines 110-133) rewrites `/` to `/index.html`, computes
`path.normalize(pathname).replace(/^(\.\.[\/\\])+/, '')`, joins the
result onto the public root, and answers 403 only when the joined path
does not start with the root.  POSIX `path.normalize` resolves `.` and
`..` segments (leading `..` of an absolute path is dropped at the root;
leading `..` of a relative path is kept), and `path.join(a, b)`
normalizes `a + '/' + b`. -/

/-- Segment pass of POSIX `path.normalize`: drop empty and `.` segments,
let `..` pop the previous segment — kept at the front of a relative
path, dropped at the root of an absolute one.  `acc` is the processed
stack, most recent first. -/
def normSegsAux (isAbs : Bool) : List String → List String → List String
  | acc, [] => acc.reverse
  | acc, s :: rest =>
    if s = "" ∨ s = "." then normSegsAux isAbs acc rest
    else if s = ".." then
      match acc with
      | [] => if isAbs then normSegsAux isAbs [] rest
              else normSegsAux isAbs [".."] rest
      | top :: acc2 =>
        if top = ".." then normSegsAux isAbs (".." :: acc) rest
        else normSegsAux isAbs acc2 rest
    else normSegsAux isAbs (s :: acc) rest

def startsWithStr (s pre : String) : Bool := pre.data.isPrefixOf s.data

def endsWithStr (s suf : String) : Bool := suf.data.isSuffixOf s.data

/-- Join path segments with `/` (kept kernel-computable). -/
def joinSegs : List String → String
  | [] => ""
  | [s] => s
  | s :: rest => s ++ "/" ++ joinSegs rest

/-- POSIX `path.normalize`. -/
def pathNormalize (p : String) : String :=
  if p = "" then "."
  else
    let isAbs := startsWithStr p "/"
    let trailing := endsWithStr p "/"
    let segs := normSegsAux isAbs []
      ((splitOnChar '/' p).map (fun cs => (⟨cs⟩ : String)))
    let core := joinSegs segs
    if isAbs then
      if core = "" then "/" else "/" ++ core ++ (if trailing then "/" else "")
    else
      if core = "" then (if trailing then "./" else ".")
      else core ++ (if trailing then "/" else "")

/-- POSIX `path.join` of two parts (empty parts are filtered before the
concatenation is normalized). -/
def pathJoin (a b : String) : String :=
  if a = "" ∧ b = "" then "."
  else if a = "" then pathNormalize b
  else if b = "" then pathNormalize a
  else pathNormalize (a ++ "/" ++ b)

/-- The regex replace `^(\.\.[\/\\])+` → `''`: strip every leading
`../` or `..\` run. -/
def stripDotDotAux : List Char → List Char
  | '.' :: '.' :: '/' :: rest => stripDotDotAux rest
  | '.' :: '.' :: '\\' :: rest => stripDotDotAux rest
  | cs => cs

def stripDotDot (s : String) : String := ⟨stripDotDotAux s.data⟩

/-- The public root `PUBLIC_DIR` (an absolute directory path without a
trailing separator; the concrete text is irrelevant to the guard
logic). -/
def PUBLIC_DIR : String := "/site/public"

inductive ServeDecision where
  | forbidden
  | serve (filePath : String)
deriving DecidableEq, Repr

/-- The `filePath` computed by `handleRequest`: default the root path to
`/index.html`, normalize, strip leading parent runs, join onto the
public root. -/
def sanitizedFilePath (pathname : String) : String :=
  let pn := if pathname = "/" then "/index.html" else pathname
  let safePath := stripDotDot (pathNormalize pn)
  pathJoin PUBLIC_DIR safePath

/-- The synchronous prefix of `handleRequest` (lines 110-133), up to the
403 check: refuse only a sanitized-and-joined path that escapes the
root, otherwise proceed to the file lookup on it. -/
def handleRequestGuard (pathname : String) : ServeDecision :=
  if startsWithStr (sanitizedFilePath pathname) PUBLIC_DIR then
    .serve (sanitizedFilePath pathname)
  else .forbidden

/-- Modelled from the spec wording of C8: the request path contains a
directory-traversal sequence. -/
def hasTraversalSeq : List Char → Bool
  | '.' :: '.' :: _ => true
  | _ :: cs => hasTraversalSeq cs
  | [] => false

/-- Modelled from the spec wording of C8: resolving the request path
directly against the output root lands outside the root. -/
def resolvesOutsideRoot (pathname : String) : Bool :=
  ! startsWithStr (pathJoin PUBLIC_DIR pathname) PUBLIC_DIR

/-- C8 counterexample: the request path `/../etc/passwd` contains a
traversal sequence and resolves outside the output root, yet the server
does not answer 403: `path.normalize` drops the leading `..` of the
absolute path, so the request is served from inside the root (it
proceeds to the file lookup for `<root>/etc/passwd`). -/
theorem handleRequestGuard_claim_counterexample :
    hasTraversalSeq "/../etc/passwd".data = true ∧
    resolvesOutsideRoot "/../etc/passwd" = true ∧
    handleRequestGuard "/../etc/passwd" = .serve "/site/public/etc/passwd" ∧
    handleRequestGuard "/../etc/passwd" ≠ .forbidden := by
  refine ⟨rfl, by decide, by decide, by decide⟩

/-- C8 amended: the 403 response is decided by the sanitized path, not
by the raw one: the server normalizes the path and strips leading
`../`/`..\` runs before joining it onto the root, and answers 403
exactly when the joined path still escapes the root (as for the raw
request path `..`); traversal sequences neutralized by the sanitization
(such as `/../etc/passwd`) are instead resolved inside the root and
proceed to the file lookup.  Consequently every served file path starts
with the output root. -/
theorem handleRequestGuard_amended :
    handleRequestGuard ".." = .forbidden ∧
    handleRequestGuard "/../etc/passwd" = .serve "/site/public/etc/passwd" ∧
    (∀ p fp : String, handleRequestGuard p = .serve fp →
      startsWithStr fp PUBLIC_DIR = true) := by
  refine ⟨by decide, by decide, fun p fp h => ?_⟩
  unfold handleRequestGuard at h
  split at h
  next hcond =>
    injection h with h2
    rw [← h2]
    exact hcond
  next => exact ServeDecision.noConfusion h

/-- Witness for C8 (amended): the served path for `/index.html` starts
with the output root. -/
theorem handleRequestGuard_amended_witness :
    startsWithStr "/site/public/index.html" PUBLIC_DIR = true :=
  handleRequestGuard_amended.2.2 "/index.html" "/site/public/index.html" (by decide)

/-! ## Index post list and build output paths -/

/-- Zero-pad to two digits (as `Date.prototype.toString` does for the
day of month). -/
def padTwo (n : Int) : String := if n < 10 then "0" ++ toString n else toString n

/-- `Date.prototype.toString` of a date-only time value under a UTC
server timezone (only reachable for an unquoted YAML `date:` value that
is interpolated into a template literal). -/
def jsDateToString (ms : Int) : String :=
  let day := ms.ediv 86400000
  let c := civilFromDays day
  weekdayNames.getD ((day + 4).emod 7).toNat "" ++ " " ++
    monthNames.getD (c.2.1 - 1).toNat "" ++ " " ++ padTwo c.2.2 ++ " " ++
    toString c.1 ++ " 00:00:00 GMT+0000 (Coordinated Universal Time)"

/-- Template-literal interpolation `${value}` of a frontmatter value. -/
def jsToString : Yaml → String
  | .str s => s
  | .bool b => if b then "true" else "false"
  | .num n => toString n
  | .null => "null"
  | .date ms => jsDateToString ms

def joinWith (sep : String) : List String → String
  | [] => ""
  | [s] => s
  | s :: rest => s ++ sep ++ joinWith sep rest

/-- One `<li>` entry of the index post list (lines 636-645). -/
def postListItem (post : Document) : String :=
  let formattedDate := formatPostDate post.date
  let dateHtml :=
    if formattedDate ≠ "" then
      "<span class=\"post-date\">" ++ formattedDate ++ "</span>"
    else "<span class=\"post-date\"></span>"
  let titleHtml := "<a href=\"posts/" ++ post.slug ++ "/\">" ++ jsToString post.title ++ "</a>"
  "  <li class=\"post-list-item\">" ++ dateHtml ++ titleHtml ++ "</li>"

/-- The `postListHtml` computation of `renderIndex`: one entry per
sorted post, joined with newlines. -/
def postListHtml (posts : List Document) : String :=
  joinWith "\n" ((sortIndexPosts posts).map postListItem)

/-- `getFilesWithExtension` (lines 776-782), with the file system
abstracted to whether the directory exists and its entry names: a
missing directory yields the empty list, otherwise the entries are
filtered by extension suffix. -/
def getFilesWithExtension (dirExists : Bool) (entries : List String) (ext : String) :
    List String :=
  if dirExists then entries.filter (fun f => endsWithStr f ext) else []

/-- The output paths (relative to `public/`, as segment lists) written by
the posts loop of `buildSite` (lines 824-833): for each post, exactly one
write, to `posts/<slug>/index.html` inside the per-post directory. -/
def postWrites (posts : List Document) : List (List String) :=
  posts.map (fun d => ["posts", d.slug, "index.html"])

/-- All output paths written by `buildSite` steps 3-5, in program order:
the per-post pages, then `index.html`, `about.html`, `404.html` at the
root, then the three copied assets. -/
def buildWrites (posts : List Document) : List (List String) :=
  postWrites posts ++
    [["index.html"], ["about.html"], ["404.html"],
      ["styles.css"], ["script.js"], ["favicon.svg"]]

theorem count_postWrites (s : String) (posts : List Document) :
    (postWrites posts).count ["posts", s, "index.html"] =
      (posts.map Document.slug).count s := by
  induction posts with
  | nil => rfl
  | cons x xs ih =>
    simp only [postWrites, List.map_cons, List.count_cons] at *
    rw [ih]
    by_cases h : x.slug = s
    · simp [h]
    · simp [h]

/-- C5: for every parsed post, the build writes its rendered page to
exactly one output path, the directory layout `posts/<slug>/index.html`
(count one among all writes, given the slug-uniqueness invariant of the
data model), and no write of the whole build ever targets a bare
`posts/<slug>.html` file. -/
theorem buildSite_clean_urls (posts : List Document) (d : Document) (hd : d ∈ posts) :
    ["posts", d.slug, "index.html"] ∈ buildWrites posts ∧
    ((posts.map Document.slug).Nodup →
      (buildWrites posts).count ["posts", d.slug, "index.html"] = 1) ∧
    (∀ w ∈ buildWrites posts, w ≠ ["posts", d.slug ++ ".html"]) := by
  refine ⟨?_, fun hnd => ?_, fun w hw => ?_⟩
  · exact List.mem_append_left _ (List.mem_map_of_mem _ hd)
  · rw [buildWrites, List.count_append, count_postWrites]
    have h1 : (posts.map Document.slug).count d.slug = 1 := by
      have hmem : d.slug ∈ posts.map Document.slug := List.mem_map_of_mem _ hd
      have hle := List.nodup_iff_count_le_one.mp hnd d.slug
      have hge := List.count_pos_iff_mem.mpr hmem
      omega
    have h2 : ([["index.html"], ["about.html"], ["404.html"], ["styles.css"],
        ["script.js"], ["favicon.svg"]] : List (List String)).count
          ["posts", d.slug, "index.html"] = 0 := by
      simp [List.count_cons]
    omega
  · rcases List.mem_append.mp hw with hw | hw
    · rcases List.mem_map.mp hw with ⟨x, _, rfl⟩
      simp
    · revert hw
      simp [List.mem_cons]
      intro h
      rcases h with rfl | rfl | rfl | rfl | rfl | rfl <;> simp

/-- Witness for C5 at a concrete one-post build. -/
theorem buildSite_clean_urls_witness :
    ["posts", "hello-world", "index.html"] ∈
        buildWrites [mkPost (.str "") "hello-world"] ∧
      (buildWrites [mkPost (.str "") "hello-world"]).count
        ["posts", "hello-world", "index.html"] = 1 := by
  have h := buildSite_clean_urls [mkPost (.str "") "hello-world"]
    (mkPost (.str "") "hello-world") (by simp)
  exact ⟨h.1, h.2.1 (by simp)⟩

/-- C10: when the posts source directory does not exist, post discovery
returns the empty list (no abort), so the build writes zero post pages
and still writes the index, about, 404 pages and the assets, with an
empty index post list. -/
theorem build_missing_posts_dir (entries : List String) (ext : String) :
    getFilesWithExtension false entries ext = [] ∧
    postWrites [] = [] ∧
    buildWrites [] =
      [["index.html"], ["about.html"], ["404.html"],
        ["styles.css"], ["script.js"], ["favicon.svg"]] ∧
    postListHtml [] = "" :=
  ⟨rfl, rfl, rfl, rfl⟩
